import Mathlib

/-!
Verification development for the yp-video repository.

The development shallowly embeds the two core subsystems:
* the Segment Fusion Engine (`src/tad/vlm_to_rally.py`, `detect_rallies`),
* the Window Planner part of the Clip Batch Orchestrator
  (`src/detect_volleyball.py`, `process_video` / `process_batch_async`),
together with the response-boundary parsing helpers
(`extract_json_from_response`, `_parse_confidence`, `_parse_shot_type`)
and the persisted annotation format (`src/annotator/main.py`).

Python floats are modelled as exact rationals (`ℚ`); Python dicts with
optional keys are modelled as structures with `Option` fields.  Unbounded
`while` loops are modelled by fuel-indexed recursions; a computed fuel that
provably suffices (for the parameter ranges of the claims) recovers the
loop's value, and divergence for bad parameters shows up as the fuel being
consumed entirely.
-/

namespace YpVideo

/-- Shot categories of `detect_volleyball.py` (`class ShotType`). -/
inductive ShotType where
  | full_court
  | close_up
deriving DecidableEq, Repr

/-- Confidence tiers of `detect_volleyball.py` (`class Confidence`). -/
inductive Confidence where
  | high
  | medium
  | low
deriving DecidableEq, Repr

/-- `ClipResult` dataclass of `detect_volleyball.py`. -/
structure ClipResult where
  start_time : ℚ
  end_time : ℚ
  has_volleyball : Bool
  confidence : Confidence
  shot_type : ShotType
  description : String
deriving DecidableEq, Repr

/-! ## Segment Fusion Engine (`src/tad/vlm_to_rally.py`) -/

/-- One input clip judgment of `detect_rallies` (a parsed JSONL dict).
`in_rally` and `shot_type` are read with `dict.get`, so they are optional. -/
structure Clip where
  start_time : ℚ
  end_time : ℚ
  in_rally : Option Bool
  shot_type : Option String
deriving DecidableEq, Repr

/-- One output rally annotation dict `{"start": .., "end": .., "label": ..}`.
The Python key `end` is a Lean keyword, so the field is called `stop`. -/
structure Seg where
  start : ℚ
  stop : ℚ
  label : String
deriving DecidableEq, Repr

/-- Python `round` to an integer: round half to even (banker's rounding). -/
def roundHalfEven (q : ℚ) : ℤ :=
  if q - Int.floor q < 1/2 then Int.floor q
  else if (1 : ℚ)/2 < q - Int.floor q then Int.floor q + 1
  else if Int.floor q % 2 = 0 then Int.floor q else Int.floor q + 1

/-- Python `round(q, 2)`: round half to even at two decimal places. -/
def round2 (q : ℚ) : ℚ := (roundHalfEven (q * 100) : ℚ) / 100

/-- `sorted(clips, key=lambda x: x["start_time"])` in `detect_rallies`. -/
def sortedClips (clips : List Clip) : List Clip :=
  clips.mergeSort (fun a b => decide (a.start_time ≤ b.start_time))

/-- `t_min = clips_sorted[0]["start_time"]` (the list is non-empty there). -/
def tminOf (clips : List Clip) : ℚ :=
  ((sortedClips clips).head?.map Clip.start_time).getD 0

/-- `t_max = max(c["end_time"] for c in clips_sorted)`. -/
def tmaxOf (clips : List Clip) : ℚ :=
  (((sortedClips clips).map Clip.end_time).max?).getD 0

/-- The slot-building loop of `detect_rallies`
(`t = t_min; while t < t_max: slot_times.append(t); t += slide_interval`),
modelled with explicit fuel. -/
def buildSlots (slide t_max : ℚ) : Nat → ℚ → List ℚ
  | 0, _ => []
  | fuel + 1, t => if t < t_max then t :: buildSlots slide t_max fuel (t + slide) else []

/-- Fuel that suffices for `buildSlots` whenever `0 < slide`. -/
def slotFuel (t_min t_max slide : ℚ) : Nat :=
  (Int.ceil ((t_max - t_min) / slide)).toNat + 1

/-- The `slot_times` list of `detect_rallies`. -/
def slot_times (t_min t_max slide : ℚ) : List ℚ :=
  buildSlots slide t_max (slotFuel t_min t_max slide) t_min

/-- The per-clip rally test of the scoring loop:
`is_rally = c.get("in_rally", False)`, strengthened by
`c.get("shot_type") == "full_court"` when `require_full_court` is set. -/
def clipPositive (require_full_court : Bool) (c : Clip) : Bool :=
  let is_rally := c.in_rally.getD false
  if require_full_court then is_rally && decide (c.shot_type = some "full_court")
  else is_rally

/-- The covering test `c["start_time"] <= t < c["end_time"]`. -/
def covers (c : Clip) (t : ℚ) : Bool :=
  decide (c.start_time ≤ t) && decide (t < c.end_time)

/-- The inner scoring loop of `detect_rallies` for one slot time `t`:
count covering clips (`total_votes`) and covering rally clips
(`rally_votes`), then `rally_votes / total_votes if total_votes > 0 else 0.0`. -/
def slotScore (clips : List Clip) (require_full_court : Bool) (t : ℚ) : ℚ :=
  let total_votes := clips.countP (fun c => covers c t)
  let rally_votes := clips.countP (fun c => covers c t && clipPositive require_full_court c)
  if total_votes = 0 then 0 else (rally_votes : ℚ) / (total_votes : ℚ)

/-- The smoothing loop of `detect_rallies`:
`window = raw_scores[max(0, i - 1) : i + 2]; smoothed.append(sum(window)/len(window))`.
Natural subtraction makes `i - 1` equal to Python's `max(0, i - 1)`. -/
def smooth_scores (raw : List ℚ) : List ℚ :=
  (List.range raw.length).map fun i =>
    let window := (raw.drop (i - 1)).take (i + 2 - (i - 1))
    window.sum / (window.length : ℚ)

/-- Building a rally dict: rounding to two decimals, label `rally`. -/
def mkRally (cs ce : ℚ) : Seg := ⟨round2 cs, round2 ce, "rally"⟩

/-- The threshold-and-merge loop of `detect_rallies`, including the final
flush after the loop.  State: `cur` is `current_start` (`none` = Python
`None`), `ce` is `current_end` (initially `0.0`). -/
def merge_slots (slide min_score min_duration : ℚ) :
    List (ℚ × ℚ) → Option ℚ → ℚ → List Seg
  | [], none, _ => []
  | [], some cs, ce => if min_duration ≤ ce - cs then [mkRally cs ce] else []
  | (t, s) :: rest, cur, ce =>
    if min_score ≤ s then
      merge_slots slide min_score min_duration rest (some (cur.getD t)) (t + slide)
    else
      match cur with
      | none => merge_slots slide min_score min_duration rest none ce
      | some cs =>
        (if min_duration ≤ ce - cs then [mkRally cs ce] else []) ++
          merge_slots slide min_score min_duration rest none ce

/-- The slot grid of one `detect_rallies` invocation. -/
def slotsOf (clips : List Clip) (slide_interval : ℚ) : List ℚ :=
  slot_times (tminOf clips) (tmaxOf clips) slide_interval

/-- The `raw_scores` list of one `detect_rallies` invocation. -/
def rawOf (clips : List Clip) (slide_interval : ℚ) (require_full_court : Bool) : List ℚ :=
  (slotsOf clips slide_interval).map (slotScore (sortedClips clips) require_full_court)

/-- The `zip(slot_times, smoothed)` iterated by the merge loop. -/
def pairsOf (clips : List Clip) (slide_interval : ℚ) (require_full_court : Bool) :
    List (ℚ × ℚ) :=
  (slotsOf clips slide_interval).zip (smooth_scores (rawOf clips slide_interval require_full_court))

/-- `detect_rallies` of `src/tad/vlm_to_rally.py`.  `clip_duration` is a
parameter of the Python function but is never used in its body; it is kept
for fidelity.  The slot loop runs with the (sufficient, see
`buildSlots_stable`) fuel `slotFuel`. -/
def detect_rallies (clips : List Clip)
    (clip_duration slide_interval min_duration min_score : ℚ)
    (require_full_court : Bool) : List Seg :=
  if clips.isEmpty then []
  else if (slotsOf clips slide_interval).isEmpty then []
  else
    merge_slots slide_interval min_score min_duration
      (pairsOf clips slide_interval require_full_court) none 0

/-- `detect_rallies` with an explicit fuel for the slot-building loop;
`detect_rallies` itself is the instance at fuel `slotFuel`. -/
def detect_rallies_fuel (fuel : Nat) (clips : List Clip)
    (clip_duration slide_interval min_duration min_score : ℚ)
    (require_full_court : Bool) : List Seg :=
  if clips.isEmpty then []
  else
    let slots := buildSlots slide_interval (tmaxOf clips) fuel (tminOf clips)
    if slots.isEmpty then []
    else
      merge_slots slide_interval min_score min_duration
        (slots.zip (smooth_scores (slots.map (slotScore (sortedClips clips) require_full_court))))
        none 0

/-! ## Window Planner (`src/detect_volleyball.py`, `process_video`) -/

/-- One sliding-window clip spec `(clip_index, start_time, end_time)` of
`process_video`.  The Python key `end` is a Lean keyword, so the field is
called `stop`. -/
structure Window where
  index : Nat
  start : ℚ
  stop : ℚ
deriving DecidableEq, Repr

/-- The window-planning loop of `process_video`
(`while current_time + clip_duration <= total_duration: ...`), modelled
with explicit fuel.  Returns the built list and the final `current_time`. -/
def clip_specs_loop (cd si td : ℚ) : Nat → ℚ → Nat → List Window × ℚ
  | 0, t, _ => ([], t)
  | fuel + 1, t, idx =>
    if t + cd ≤ td then
      let r := clip_specs_loop cd si td fuel (t + si) (idx + 1)
      (⟨idx + 1, t, t + cd⟩ :: r.1, r.2)
    else ([], t)

/-- Fuel that suffices for `clip_specs_loop` whenever `0 < si` and `0 < cd`
(see `clip_specs_loop_exit`). -/
def planFuel (td si : ℚ) : Nat := (Int.ceil (td / si)).toNat + 2

/-- The window list built by `process_video`: the loop windows, plus the
final boundary-adjusted window when
`remaining = total_duration - current_time > slide_interval`. -/
def clip_specs (td cd si : ℚ) : List Window :=
  let r := clip_specs_loop cd si td (planFuel td si) 0 0
  if td - r.2 > si then
    r.1 ++ [⟨r.1.length + 1, max 0 (td - cd), td⟩]
  else r.1

/-! ## Clip Batch Orchestrator (`src/detect_volleyball.py`) -/

/-- Batching of `process_video`
(`for batch_start in range(0, total_clips, batch_size)` with slicing),
modelled with fuel equal to the list length.  Python's `range` with step 0
raises; the claims only use a positive batch size. -/
def chunkAux (bs : Nat) : Nat → List Window → List (List Window)
  | _, [] => []
  | 0, _ => []
  | fuel + 1, x :: xs => ((x :: xs).take bs) :: chunkAux bs fuel ((x :: xs).drop bs)

/-- The list of batches processed by `process_video`. -/
def chunkList (bs : Nat) (l : List Window) : List (List Window) :=
  chunkAux bs l.length l

/-- The per-batch extraction step of `process_video`: windows whose
`extract_clip` fails (`FFmpegError`) are dropped from `batch_clips`. -/
def batchClips (extractOk : Nat → Bool) (batch : List Window) : List Window :=
  batch.filter (fun w => extractOk w.index)

/-- `process_batch_async`: one classification attempt per clip, gathered in
task order (`asyncio.gather` aligns results positionally with its inputs,
independent of completion order); an exception becomes `(index, None)`.
The external classifier is modelled by `classify : Nat → Option ClipResult`
(`none` = transport failure / timeout / HTTP error raised as an exception). -/
def process_batch_async (classify : Nat → Option ClipResult) (batch : List Window) :
    List (Nat × Option ClipResult) :=
  batch.map (fun w => (w.index, classify w.index))

/-- The result-collection step of `process_video`
(`for clip_idx, clip_result in batch_results: if clip_result: results.append(...)`). -/
def collectResults (batchResults : List (Nat × Option ClipResult)) : List ClipResult :=
  batchResults.filterMap Prod.snd

/-- The window indices whose judgment survives collection (used to state
ordering/absence properties; `process_video` appends the judgments in
exactly this order). -/
def keptIndices (batchResults : List (Nat × Option ClipResult)) : List Nat :=
  batchResults.filterMap (fun p => if p.2.isSome then some p.1 else none)

/-- The index/judgment pairs produced by a whole `process_video` run over
`windows`, batch by batch. -/
def runBatches (windows : List Window) (bs : Nat) (extractOk : Nat → Bool)
    (classify : Nat → Option ClipResult) : List (Nat × Option ClipResult) :=
  (chunkList bs windows).flatMap
    (fun batch => process_batch_async classify (batchClips extractOk batch))

/-- The final `results` list of `process_video`. -/
def runResults (windows : List Window) (bs : Nat) (extractOk : Nat → Bool)
    (classify : Nat → Option ClipResult) : List ClipResult :=
  (chunkList bs windows).flatMap
    (fun batch => collectResults (process_batch_async classify (batchClips extractOk batch)))

/-! ## Response-boundary parsing (`src/detect_volleyball.py`) -/

/-- A parsed classifier response dict; every field is optional because the
Python code reads them with `dict.get`. -/
structure RawResponse where
  has_volleyball : Option Bool
  confidence : Option String
  shot_type : Option String
  description : Option String
deriving DecidableEq, Repr

/-- The fallback dict built by `extract_json_from_response` on
`json.JSONDecodeError`.  The Python enums are `str` enums, so
`Confidence.LOW` / `ShotType.CLOSE_UP` are recorded here by their string
values `low` / `close_up`; `content[:100]` is the first 100 characters. -/
def fallbackResponse (content : String) : RawResponse :=
  { has_volleyball := some false
    confidence := some "low"
    shot_type := some "close_up"
    description := some ("Failed to parse response: " ++ content.take 100) }

/-- The fenced-code-block search
`re.search(r"` ++ "```" ++ `(?:json)?\s*([\s\S]*?)` ++ "```" ++ `", content)`:
the match exists iff the text contains two (non-overlapping) fences; the
group is the text between the first two fences, minus an optional leading
`json`.  (The regex also excludes leading whitespace from the group, but the
caller strips the group anyway, so the trimmed results agree.) -/
def fenceInner (content : String) : Option String :=
  match content.splitOn "```" with
  | _ :: inner :: _ :: _ =>
    some (if inner.startsWith "json" then inner.drop 4 else inner)
  | _ => none

/-- The `json_str` computed by `extract_json_from_response`:
`json_match.group(1).strip()` when the fence matched, else `content.strip()`. -/
def json_str_of (content : String) : String :=
  match fenceInner content with
  | some inner => inner.trim
  | none => content.trim

/-- `extract_json_from_response`, parameterised by the external JSON parser
`loads` (`json.loads`; `none` = `json.JSONDecodeError`). -/
def extract_json_from_response (loads : String → Option RawResponse)
    (content : String) : RawResponse :=
  (loads (json_str_of content)).getD (fallbackResponse content)

/-- `_parse_confidence`: `Confidence(value)` succeeds exactly on the three
enum values, otherwise `ValueError` is caught and `LOW` returned. -/
def parse_confidence (value : String) : Confidence :=
  if value = "high" then .high
  else if value = "medium" then .medium
  else if value = "low" then .low
  else .low

/-- `_parse_shot_type`: `ShotType(value)` succeeds exactly on the two enum
values, otherwise `ValueError` is caught and `FULL_COURT` returned. -/
def parse_shot_type (value : String) : ShotType :=
  if value = "full_court" then .full_court
  else if value = "close_up" then .close_up
  else .full_court

/-- The `ClipResult` construction of `process_batch_async` /
`process_single_clip` from a parsed response dict, with the `dict.get`
defaults of the source. -/
def clipResultOfResponse (start_time end_time : ℚ) (r : RawResponse) : ClipResult :=
  { start_time := start_time
    end_time := end_time
    has_volleyball := r.has_volleyball.getD false
    confidence := parse_confidence (r.confidence.getD "low")
    shot_type := parse_shot_type (r.shot_type.getD "full_court")
    description := r.description.getD "" }

/-! ## Persisted segment annotation format (`src/annotator/main.py`) -/

/-- A JSON scalar as used by the annotation lines. -/
inductive JVal where
  | jstr (s : String)
  | jnum (q : ℚ)
  | jbool (b : Bool)
deriving DecidableEq, Repr

/-- One serialized JSONL line, modelled as the key/value object it encodes
(Python's `json.dumps`/`json.loads` round-trip these objects exactly, so the
external codec is modelled as the identity on this representation). -/
abbrev JObj := List (String × JVal)

/-- One annotation record `{start, end, label}` (`class Annotation` of the
annotator; the Python key `end` is a Lean keyword, so the field is `stop`). -/
structure AnnRecord where
  start : ℚ
  stop : ℚ
  label : String
deriving DecidableEq, Repr

/-- The object written for one annotation by `save_annotations`. -/
def annToObj (a : AnnRecord) : JObj :=
  [("start", JVal.jnum a.start), ("end", JVal.jnum a.stop), ("label", JVal.jstr a.label)]

/-- Reading one annotation object back (field lookup as the web client and
`read_jsonl` consumers do). -/
def objToAnn (o : JObj) : Option AnnRecord :=
  match o.lookup "start", o.lookup "end", o.lookup "label" with
  | some (JVal.jnum s), some (JVal.jnum e), some (JVal.jstr l) => some ⟨s, e, l⟩
  | _, _, _ => none

/-- `save_annotations` of `src/annotator/main.py`: one metadata line
(`{"_meta": true, "video": .., "duration": ..}`) followed by one line per
annotation. -/
def save_annotations (video : String) (duration : ℚ) (records : List AnnRecord) :
    List JObj :=
  [("_meta", JVal.jbool true), ("video", JVal.jstr video), ("duration", JVal.jnum duration)]
    :: records.map annToObj

/-- `meta.pop("_meta", None)` in `read_jsonl`. -/
def popMeta (o : JObj) : JObj := o.filter (fun kv => decide (kv.1 ≠ "_meta"))

/-- `read_jsonl` of `src/annotator/main.py`: the first line is the metadata
(with `_meta` popped), the remaining lines are the results list. -/
def read_jsonl (lines : List JObj) : JObj × List JObj :=
  match lines with
  | [] => ([], [])
  | meta :: rest => (popMeta meta, rest)

/-! ## Supporting lemmas: the slot-building loop -/

/-- With positive slide, `buildSlots` stabilises: any fuel at least
`⌈(t_max - t) / slide⌉` yields the value at exactly that fuel. -/
lemma buildSlots_eq_needed (t_max slide : ℚ) (hs : 0 < slide) :
    ∀ (fuel : Nat) (t : ℚ), (Int.ceil ((t_max - t) / slide)).toNat ≤ fuel →
      buildSlots slide t_max fuel t =
        buildSlots slide t_max ((Int.ceil ((t_max - t) / slide)).toNat) t := by
  intro fuel
  induction fuel with
  | zero =>
    intro t h
    rw [Nat.le_zero] at h
    rw [h]
  | succ fuel ih =>
    intro t h
    by_cases hlt : t < t_max
    · have hceil : 0 < Int.ceil ((t_max - t) / slide) := by
        rw [Int.ceil_pos]
        exact div_pos (by linarith) hs
      have harg : (t_max - (t + slide)) / slide = (t_max - t) / slide - 1 := by
        field_simp
        ring
      have hnext : (Int.ceil ((t_max - (t + slide)) / slide)).toNat
          = (Int.ceil ((t_max - t) / slide)).toNat - 1 := by
        rw [harg, Int.ceil_sub_one]
        omega
      obtain ⟨m, hm⟩ : ∃ m, (Int.ceil ((t_max - t) / slide)).toNat = m + 1 :=
        ⟨(Int.ceil ((t_max - t) / slide)).toNat - 1, by omega⟩
      rw [buildSlots, if_pos hlt, hm, buildSlots, if_pos hlt]
      have h1 : (Int.ceil ((t_max - (t + slide)) / slide)).toNat ≤ fuel := by
        rw [hnext]; omega
      rw [ih (t + slide) h1, hnext, hm]
      simp
    · rw [buildSlots, if_neg hlt]
      rcases Nat.eq_zero_or_pos ((Int.ceil ((t_max - t) / slide)).toNat) with h0 | h0
      · rw [h0]; rfl
      · obtain ⟨m, hm⟩ : ∃ m, (Int.ceil ((t_max - t) / slide)).toNat = m + 1 :=
          ⟨(Int.ceil ((t_max - t) / slide)).toNat - 1, by omega⟩
        rw [hm, buildSlots, if_neg hlt]

/-- With positive slide, adding fuel beyond `slotFuel` does not change the
slot list: the loop has terminated by its own condition. -/
lemma buildSlots_stable (t_min t_max slide : ℚ) (hs : 0 < slide) (extra : Nat) :
    buildSlots slide t_max (slotFuel t_min t_max slide + extra) t_min
      = slot_times t_min t_max slide := by
  have h1 := buildSlots_eq_needed t_max slide hs (slotFuel t_min t_max slide + extra) t_min
    (by unfold slotFuel; omega)
  have h2 := buildSlots_eq_needed t_max slide hs (slotFuel t_min t_max slide) t_min
    (by unfold slotFuel; omega)
  unfold slot_times
  rw [h1, h2]

/-- With non-positive slide (and a non-degenerate grid), the slot loop never
exits: it consumes all its fuel. -/
lemma buildSlots_diverges (slide t_max : ℚ) (hs : slide ≤ 0) :
    ∀ (fuel : Nat) (t : ℚ), t < t_max → (buildSlots slide t_max fuel t).length = fuel := by
  intro fuel
  induction fuel with
  | zero => intro t _; rfl
  | succ fuel ih =>
    intro t h
    rw [buildSlots, if_pos h]
    simp [ih (t + slide) (by linarith)]

/-! ## C10 -/

/-- C10: for a positive slide interval the slot-building loop of
`detect_rallies` terminates — running `detect_rallies` with any fuel at
least `slotFuel` returns the same list, so the function is well defined —
while for slide ≤ 0 (the unchecked condition) the loop consumes any amount
of fuel whenever the grid `[t, t_max)` is non-degenerate, i.e. never exits. -/
theorem c10_slot_loop_termination (clips : List Clip) (cd si md ms : ℚ) (rfc : Bool)
    (hsi : 0 < si) :
    (∀ extra, detect_rallies_fuel (slotFuel (tminOf clips) (tmaxOf clips) si + extra)
        clips cd si md ms rfc = detect_rallies clips cd si md ms rfc)
    ∧ (∀ (sl tm t : ℚ) (fuel : Nat), sl ≤ 0 → t < tm →
        (buildSlots sl tm fuel t).length = fuel) := by
  constructor
  · intro extra
    unfold detect_rallies_fuel detect_rallies
    rw [buildSlots_stable _ _ _ hsi]
    rfl
  · exact fun sl tm t fuel h1 h2 => buildSlots_diverges sl tm h1 fuel t h2

/-- C10 witness: a concrete run where extra fuel does not change the result. -/
theorem c10_witness :
    (0 : ℚ) < 3 ∧
      detect_rallies_fuel
          (slotFuel (tminOf [⟨0, 6, some true, some "full_court"⟩])
            (tmaxOf [⟨0, 6, some true, some "full_court"⟩]) 3 + 7)
          [⟨0, 6, some true, some "full_court"⟩] 6 3 3 (1/2) true
        = detect_rallies [⟨0, 6, some true, some "full_court"⟩] 6 3 3 (1/2) true :=
  ⟨by norm_num,
    (c10_slot_loop_termination [⟨0, 6, some true, some "full_court"⟩] 6 3 3 (1/2) true
      (by norm_num)).1 7⟩

/-! ## C9 -/

/-- C9: the persisted segment annotation format round-trips.  Writing a
segment list with `save_annotations` (one metadata line, then one record per
segment) and reading it back with `read_jsonl` reproduces the metadata
fields (`video`, `duration`, with the `_meta` marker popped) and the same
ordered list of segment records; decoding each record recovers exactly the
annotations written.  The reproduction is exact, hence in particular within
rounding to 2 decimal places. -/
theorem c9_roundtrip (video : String) (duration : ℚ) (records : List AnnRecord) :
    read_jsonl (save_annotations video duration records) =
      ([("video", JVal.jstr video), ("duration", JVal.jnum duration)], records.map annToObj)
    ∧ (read_jsonl (save_annotations video duration records)).2.filterMap objToAnn = records := by
  constructor
  · simp [read_jsonl, save_annotations, popMeta]
  · simp only [read_jsonl, save_annotations, List.filterMap_map]
    have h : (fun a => objToAnn (annToObj a)) = fun a : AnnRecord => some a := by
      funext a
      rfl
    rw [show objToAnn ∘ annToObj = fun a : AnnRecord => some a from funext fun a => rfl]
    simp

/-! ## C4 (corrected) -/

unseal Rat.add Rat.mul Rat.inv Rat.sub Nat.gcd in
/-- C4 counterexample: for `total_duration = 5 < clip_duration = 6` and
`slide_interval = 3`, the planner does NOT return an empty list — the
trailing-remainder rule fires (`5 - 0 > 3`) and appends the boundary window
`[0, 5)`. -/
theorem c4_counterexample :
    clip_specs 5 6 3 = [⟨1, 0, 5⟩] ∧ clip_specs 5 6 3 ≠ [] := by
  constructor <;> decide

/-- C4 amended: for `0 < total_duration < clip_duration` (and positive
slide), the planner emits no loop window; it returns the single
boundary-anchored window `(1, 0, total_duration)` when
`total_duration > slide_interval`, and the empty list otherwise.  Only in
the latter case is the claimed empty list returned. -/
theorem c4_amended (td cd si : ℚ) (htd : 0 < td) (hlt : td < cd) (hsi : 0 < si) :
    clip_specs td cd si = if si < td then [⟨1, 0, td⟩] else [] := by
  have hcond : ¬((0 : ℚ) + cd ≤ td) := by
    push_neg
    linarith
  have h1 : clip_specs_loop cd si td (planFuel td si) 0 0 = ([], 0) := by
    have hf : planFuel td si = ((Int.ceil (td / si)).toNat + 1) + 1 := rfl
    rw [hf, clip_specs_loop, if_neg hcond]
  have hmax : max 0 (td - cd) = 0 := max_eq_left (by linarith)
  unfold clip_specs
  rw [h1]
  by_cases h : si < td
  · rw [if_pos (by simpa using h), if_pos h]
    simp [hmax]
  · rw [if_neg (by simpa using h), if_neg h]

/-- C4 witness: the amended statement at `td = 5, cd = 6, si = 3`. -/
theorem c4_witness :
    (0 : ℚ) < 5 ∧ (5 : ℚ) < 6 ∧ (0 : ℚ) < 3 ∧
      clip_specs 5 6 3 = if (3 : ℚ) < 5 then [⟨1, 0, 5⟩] else [] :=
  ⟨by norm_num, by norm_num, by norm_num,
    c4_amended 5 6 3 (by norm_num) (by norm_num) (by norm_num)⟩

/-! ## C5 (corrected) -/

/-- The fusion input of the spec's worked example: clips of length 6 at
starts 0, 3, 6, 9, all positive with full-court shot except the clip
starting at 6. -/
def exampleClips : List Clip :=
  [⟨0, 6, some true, some "full_court"⟩,
   ⟨3, 9, some true, some "full_court"⟩,
   ⟨6, 12, some false, some "full_court"⟩,
   ⟨9, 15, some true, some "full_court"⟩]

unseal Rat.add Rat.mul Rat.inv Rat.sub Nat.gcd List.merge List.mergeSort in
/-- C5 counterexample: on the example input the slot grid is
`{0, 3, 6, 9, 12}` (five slots, not four); the raw score at slot 9 is `1/2`
(covered by the negative window `[6,12)` and the positive `[9,15)`), not the
claimed `1`; and the resulting segment is `[0, 15)`, not `[0, 12)`. -/
theorem c5_counterexample :
    (slotsOf exampleClips 3).getD 3 0 = 9
    ∧ (rawOf exampleClips 3 true).getD 3 0 = 1/2
    ∧ (rawOf exampleClips 3 true).getD 3 0 ≠ 1
    ∧ detect_rallies exampleClips 6 3 3 (1/2) true ≠ [⟨0, 12, "rally"⟩] := by
  refine ⟨by decide, by decide, by decide, by decide⟩

unseal Rat.add Rat.mul Rat.inv Rat.sub Nat.gcd List.merge List.mergeSort in
/-- C5 amended: on the example input the slots are `{0, 3, 6, 9, 12}` with
raw scores `{1, 1, 1/2, 1/2, 1}`; after centered 3-slot smoothing every slot
stays at or above `1/2`, so thresholding at `min_score = 1/2` yields the
single segment `[0, 15)` — also with `min_duration = 0` (no effective
duration filtering).  The false negative at the clip starting at 6 does not
split the rally. -/
theorem c5_amended :
    slotsOf exampleClips 3 = [0, 3, 6, 9, 12]
    ∧ rawOf exampleClips 3 true = [1, 1, 1/2, 1/2, 1]
    ∧ smooth_scores (rawOf exampleClips 3 true) = [1, 5/6, 2/3, 2/3, 3/4]
    ∧ (∀ s ∈ smooth_scores (rawOf exampleClips 3 true), (1 : ℚ)/2 ≤ s)
    ∧ detect_rallies exampleClips 6 3 3 (1/2) true = [⟨0, 15, "rally"⟩]
    ∧ detect_rallies exampleClips 6 3 0 (1/2) true = [⟨0, 15, "rally"⟩] := by
  refine ⟨by decide, by decide, by decide, by decide, by decide, by decide⟩

/-! ## C8 (corrected) -/

unseal Rat.add Rat.mul Rat.inv Rat.sub Nat.gcd List.merge List.mergeSort in
/-- C8 counterexample: no fail-fast validation exists.  The Fusion Engine
accepts `min_score = 3/2 ∉ [0,1]` and returns normally (an empty list, while
clamping to 1 would return the non-empty result shown); it accepts a
negative `min_duration` and returns normally; the Window Planner accepts
`clip_duration = -1 ≤ 0` and returns degenerate windows instead of failing. -/
theorem c8_counterexample :
    detect_rallies [⟨0, 6, some true, some "full_court"⟩] 6 3 3 (3/2) true = []
    ∧ detect_rallies [⟨0, 6, some true, some "full_court"⟩] 6 3 3 1 true
        = [⟨0, 6, "rally"⟩]
    ∧ detect_rallies [⟨0, 6, some true, some "full_court"⟩] 6 3 (-1) (1/2) true
        = [⟨0, 6, "rally"⟩]
    ∧ clip_specs 6 (-1) 3 = [⟨1, 0, -1⟩, ⟨2, 3, 2⟩, ⟨3, 6, 5⟩] := by
  refine ⟨by decide, by decide, by decide, by decide⟩

/-- The planner loop never exits when `slide_interval ≤ 0` (started from a
non-positive time with a window that fits): it consumes all its fuel. -/
lemma clip_specs_loop_diverges (cd si td : ℚ) (hcd : cd ≤ td) (hsi : si ≤ 0) :
    ∀ (fuel : Nat) (t : ℚ) (idx : Nat), t ≤ 0 →
      ((clip_specs_loop cd si td fuel t idx).1).length = fuel := by
  intro fuel
  induction fuel with
  | zero => intro t idx _; rfl
  | succ fuel ih =>
    intro t idx ht
    rw [clip_specs_loop, if_pos (by linarith : t + cd ≤ td)]
    simp [ih (t + si) (idx + 1) (by linarith)]

unseal Rat.add Rat.mul Rat.inv Rat.sub Nat.gcd List.merge List.mergeSort in
/-- C8 amended: neither component validates its parameters.  The Window
Planner performs no check: with `slide_interval ≤ 0` its loop never
terminates (instead of failing with InvalidInput), and with
`clip_duration ≤ 0` it returns degenerate windows; the Fusion Engine accepts
`min_score` outside `[0,1]` and negative `min_duration` and uses them as
given — no error and no clamping. -/
theorem c8_amended (cd si td : ℚ) (hcd : cd ≤ td) (hsi : si ≤ 0) :
    (∀ fuel, ((clip_specs_loop cd si td fuel 0 0).1).length = fuel)
    ∧ detect_rallies [⟨0, 6, some true, some "full_court"⟩] 6 3 3 (3/2) true = []
    ∧ detect_rallies [⟨0, 6, some true, some "full_court"⟩] 6 3 (-1) (1/2) true
        = [⟨0, 6, "rally"⟩]
    ∧ clip_specs 6 0 3 = [⟨1, 0, 0⟩, ⟨2, 3, 3⟩, ⟨3, 6, 6⟩] := by
  refine ⟨fun fuel => clip_specs_loop_diverges cd si td hcd hsi fuel 0 0 le_rfl,
    by decide, by decide, by decide⟩

/-- C8 witness: the amended statement at `cd = 0, si = 0, td = 6`,
with the divergence conjunct instantiated at fuel 5. -/
theorem c8_witness :
    (0 : ℚ) ≤ 6 ∧ (0 : ℚ) ≤ 0 ∧
      ((clip_specs_loop 0 0 6 5 0 0).1).length = 5 ∧
      detect_rallies [⟨0, 6, some true, some "full_court"⟩] 6 3 3 (3/2) true = [] :=
  ⟨by norm_num, le_refl 0,
    (c8_amended 0 0 6 (by norm_num) (le_refl 0)).1 5,
    (c8_amended 0 0 6 (by norm_num) (le_refl 0)).2.1⟩

/-! ## C7 (corrected) -/

/-- C7 counterexample: an unknown or missing shot category maps to
`full_court` — the wide/full-view TARGET category — not to the non-target
`close_up` category the claim states. -/
theorem c7_counterexample :
    parse_shot_type "overhead" = ShotType.full_court
    ∧ parse_shot_type "overhead" ≠ ShotType.close_up
    ∧ (clipResultOfResponse 0 6
        ⟨some true, some "high", none, some "d"⟩).shot_type = ShotType.full_court := by
  refine ⟨rfl, by decide, rfl⟩

/-- C7 amended: response content is mapped to a judgment at the boundary
without crashing; fenced code-block markup is stripped before JSON parsing;
fully unparsable content yields the recovered fallback judgment
(`has_volleyball = false`, confidence `low`, description holding the first
100 characters of the raw content); unknown or missing confidence maps to
`low`; but unknown or missing shot category maps to `full_court` (the
wide/full-view target category), while only the whole-content-unparsable
fallback dict records the `close_up` category. -/
theorem c7_amended (loads : String → Option RawResponse) (content : String)
    (v w : String)
    (hv : v ≠ "full_court" ∧ v ≠ "close_up")
    (hw : w ≠ "high" ∧ w ≠ "medium" ∧ w ≠ "low") :
    (∀ inner, fenceInner content = some inner →
      extract_json_from_response loads content
        = (loads inner.trim).getD (fallbackResponse content))
    ∧ (loads (json_str_of content) = none →
        extract_json_from_response loads content = fallbackResponse content
        ∧ (fallbackResponse content).has_volleyball = some false
        ∧ (fallbackResponse content).confidence = some "low"
        ∧ (fallbackResponse content).shot_type = some "close_up"
        ∧ (fallbackResponse content).description
            = some ("Failed to parse response: " ++ content.take 100))
    ∧ parse_confidence w = Confidence.low
    ∧ (∀ (s e : ℚ) (hb : Option Bool) (st desc : Option String),
        (clipResultOfResponse s e ⟨hb, none, st, desc⟩).confidence = Confidence.low)
    ∧ parse_shot_type v = ShotType.full_court
    ∧ (∀ (s e : ℚ) (hb : Option Bool) (conf desc : Option String),
        (clipResultOfResponse s e ⟨hb, conf, none, desc⟩).shot_type = ShotType.full_court) := by
  refine ⟨?_, ?_, ?_, ?_, ?_, ?_⟩
  · intro inner hinner
    unfold extract_json_from_response json_str_of
    rw [hinner]
  · intro hfail
    unfold extract_json_from_response
    rw [hfail]
    exact ⟨rfl, rfl, rfl, rfl, rfl⟩
  · unfold parse_confidence
    rw [if_neg hw.1, if_neg hw.2.1, if_neg hw.2.2]
  · intro s e hb st desc
    rfl
  · unfold parse_shot_type
    rw [if_neg hv.1, if_neg hv.2]
  · intro s e hb conf desc
    rfl

/-- C7 witness: the amended statement at a concrete always-failing parser,
content, and unknown field values. -/
theorem c7_witness :
    (("overhead" : String) ≠ "full_court" ∧ ("overhead" : String) ≠ "close_up")
    ∧ (("wild" : String) ≠ "high" ∧ ("wild" : String) ≠ "medium" ∧ ("wild" : String) ≠ "low")
    ∧ parse_shot_type "overhead" = ShotType.full_court
    ∧ parse_confidence "wild" = Confidence.low
    ∧ extract_json_from_response (fun _ => none) "garbage" = fallbackResponse "garbage" :=
  ⟨⟨by decide, by decide⟩, ⟨by decide, by decide, by decide⟩,
    (c7_amended (fun _ => none) "garbage" "overhead" "wild"
      ⟨by decide, by decide⟩ ⟨by decide, by decide, by decide⟩).2.2.2.2.1,
    (c7_amended (fun _ => none) "garbage" "overhead" "wild"
      ⟨by decide, by decide⟩ ⟨by decide, by decide, by decide⟩).2.2.1,
    ((c7_amended (fun _ => none) "garbage" "overhead" "wild"
      ⟨by decide, by decide⟩ ⟨by decide, by decide, by decide⟩).2.1 rfl).1⟩

/-! ## Supporting lemmas: scores and smoothing -/

lemma sortedClips_perm (clips : List Clip) : List.Perm (sortedClips clips) clips :=
  List.mergeSort_perm clips _

/-- The score loop runs over the sorted clips, but counting is
permutation-invariant, so the score is the covering ratio over the original
judgment list. -/
lemma slotScore_sorted_eq (clips : List Clip) (rfc : Bool) (t : ℚ) :
    slotScore (sortedClips clips) rfc t
      = if clips.countP (fun c => covers c t) = 0 then 0
        else (clips.countP (fun c => covers c t && clipPositive rfc c) : ℚ)
          / (clips.countP (fun c => covers c t) : ℚ) := by
  unfold slotScore
  rw [(sortedClips_perm clips).countP_eq (fun c => covers c t),
    (sortedClips_perm clips).countP_eq (fun c => covers c t && clipPositive rfc c)]

lemma rawOf_getD (clips : List Clip) (si : ℚ) (rfc : Bool) (i : Nat)
    (hi : i < (slotsOf clips si).length) :
    (rawOf clips si rfc).getD i 0
      = slotScore (sortedClips clips) rfc ((slotsOf clips si).getD i 0) := by
  unfold rawOf
  simp [List.getD_eq_getElem?_getD, List.getElem?_map, List.getElem?_eq_getElem hi]

lemma rawOf_length (clips : List Clip) (si : ℚ) (rfc : Bool) :
    (rawOf clips si rfc).length = (slotsOf clips si).length := by
  unfold rawOf
  simp

lemma smooth_length (raw : List ℚ) : (smooth_scores raw).length = raw.length := by
  unfold smooth_scores
  simp

lemma smooth_getD (raw : List ℚ) (i : Nat) (hi : i < raw.length) :
    (smooth_scores raw).getD i 0
      = ((raw.drop (i - 1)).take (i + 2 - (i - 1))).sum
        / (((raw.drop (i - 1)).take (i + 2 - (i - 1))).length : ℚ) := by
  unfold smooth_scores
  simp [List.getD_eq_getElem?_getD, List.getElem?_map, List.getElem?_range, hi]

lemma window_interior (raw : List ℚ) (i : Nat) (h0 : 0 < i) (h1 : i + 1 < raw.length) :
    (raw.drop (i - 1)).take (i + 2 - (i - 1))
      = [raw.getD (i - 1) 0, raw.getD i 0, raw.getD (i + 1) 0] := by
  have hi1 : i - 1 < raw.length := by omega
  have hi : i < raw.length := by omega
  have e3 : i + 2 - (i - 1) = 3 := by omega
  have ei : i - 1 + 1 = i := by omega
  rw [e3, List.drop_eq_getElem_cons hi1, ei, List.drop_eq_getElem_cons hi,
    List.drop_eq_getElem_cons h1]
  rw [List.getD_eq_getElem raw 0 hi1, List.getD_eq_getElem raw 0 hi,
    List.getD_eq_getElem raw 0 h1]
  rfl

lemma window_left (raw : List ℚ) (h2 : 2 ≤ raw.length) :
    (raw.drop (0 - 1)).take (0 + 2 - (0 - 1)) = [raw.getD 0 0, raw.getD 1 0] := by
  have h0 : 0 < raw.length := by omega
  have h1 : 1 < raw.length := by omega
  have e : raw.drop 0 = raw[0] :: raw[1] :: raw.drop 2 := by
    rw [List.drop_eq_getElem_cons h0, List.drop_eq_getElem_cons h1]
  calc (raw.drop (0 - 1)).take (0 + 2 - (0 - 1)) = (raw.drop 0).take 2 := by norm_num
    _ = [raw[0], raw[1]] := by rw [e]; rfl
    _ = [raw.getD 0 0, raw.getD 1 0] := by
        rw [List.getD_eq_getElem raw 0 h0, List.getD_eq_getElem raw 0 h1]

lemma window_right (raw : List ℚ) (i : Nat) (h : i = raw.length - 1) (h2 : 2 ≤ raw.length) :
    (raw.drop (i - 1)).take (i + 2 - (i - 1)) = [raw.getD (i - 1) 0, raw.getD i 0] := by
  have hi1 : i - 1 < raw.length := by omega
  have hi : i < raw.length := by omega
  have e3 : i + 2 - (i - 1) = 3 := by omega
  have ei : i - 1 + 1 = i := by omega
  have en : i + 1 = raw.length := by omega
  rw [e3, List.drop_eq_getElem_cons hi1, ei, List.drop_eq_getElem_cons hi, en,
    List.drop_length]
  rw [List.getD_eq_getElem raw 0 hi1, List.getD_eq_getElem raw 0 hi]
  rfl

/-! ## C1 -/

/-- C1: for a non-empty judgment list, the raw score of slot `i` is the
number of covering positive judgments over the number of covering judgments
(computed over the original, unsorted list; `covers` is
`start_time ≤ t < end_time`, and positivity requires the full-court shot
category when `require_full_court` is set), with score 0 when no judgment
covers the slot; and the smoothed sequence is the centered 3-slot moving
average, the two edge slots averaging the 2-slot window available at the
boundary. -/
theorem c1_raw_scores_and_smoothing (clips : List Clip) (si : ℚ) (rfc : Bool)
    (hne : clips ≠ []) (i : Nat) (hi : i < (slotsOf clips si).length) :
    ((rawOf clips si rfc).getD i 0 =
      if clips.countP (fun c => covers c ((slotsOf clips si).getD i 0)) = 0 then 0
      else (clips.countP (fun c => covers c ((slotsOf clips si).getD i 0)
              && clipPositive rfc c) : ℚ)
        / (clips.countP (fun c => covers c ((slotsOf clips si).getD i 0)) : ℚ))
    ∧ (0 < i → i + 1 < (rawOf clips si rfc).length →
        (smooth_scores (rawOf clips si rfc)).getD i 0
          = ((rawOf clips si rfc).getD (i - 1) 0 + (rawOf clips si rfc).getD i 0
              + (rawOf clips si rfc).getD (i + 1) 0) / 3)
    ∧ (i = 0 → 2 ≤ (rawOf clips si rfc).length →
        (smooth_scores (rawOf clips si rfc)).getD i 0
          = ((rawOf clips si rfc).getD 0 0 + (rawOf clips si rfc).getD 1 0) / 2)
    ∧ (i = (rawOf clips si rfc).length - 1 → 2 ≤ (rawOf clips si rfc).length →
        (smooth_scores (rawOf clips si rfc)).getD i 0
          = ((rawOf clips si rfc).getD (i - 1) 0 + (rawOf clips si rfc).getD i 0) / 2) := by
  refine ⟨?_, ?_, ?_, ?_⟩
  · rw [rawOf_getD clips si rfc i hi, slotScore_sorted_eq]
  · intro h0 h1
    rw [smooth_getD _ i (by omega), window_interior _ i h0 h1]
    simp
    ring
  · intro h0 h2
    subst h0
    rw [smooth_getD _ 0 (by omega), window_left _ h2]
    simp
  · intro h0 h2
    rw [smooth_getD _ i (by omega), window_right _ i h0 h2]
    simp

unseal Rat.add Rat.mul Rat.inv Rat.sub Nat.gcd List.merge List.mergeSort in
/-- C1 witness: the raw-score formula instantiated on the example input at
slot index 2 (slot time 6). -/
theorem c1_witness :
    exampleClips ≠ [] ∧ 2 < (slotsOf exampleClips 3).length ∧
      (rawOf exampleClips 3 true).getD 2 0 =
        (if exampleClips.countP
              (fun c => covers c ((slotsOf exampleClips 3).getD 2 0)) = 0 then 0
         else (exampleClips.countP
                (fun c => covers c ((slotsOf exampleClips 3).getD 2 0)
                  && clipPositive true c) : ℚ)
            / (exampleClips.countP
                (fun c => covers c ((slotsOf exampleClips 3).getD 2 0)) : ℚ)) :=
  ⟨by decide, by decide,
    (c1_raw_scores_and_smoothing exampleClips 3 true (by decide) 2 (by decide)).1⟩

/-! ## Supporting lemmas: the threshold-and-merge loop -/

/-- The segment emitted for one maximal active run of slots with first slot
start `first` and last slot start `last`: the candidate spans
`[first, last + slide)` and is kept iff its duration is at least
`min_duration` (so a duration exactly equal to `min_duration` is kept). -/
def run_seg (si md first last : ℚ) : List Seg :=
  if md ≤ (last + si) - first then [mkRally first (last + si)] else []

/-- Specification-level view of the merge loop: the state is the current
maximal run of consecutive active slots (its first and last slot starts); a
run is closed by the first inactive slot after it or by the end of the grid,
and contributes exactly one candidate via `run_seg`. -/
def fuse_runs (si ms md : ℚ) : List (ℚ × ℚ) → Option (ℚ × ℚ) → List Seg
  | [], none => []
  | [], some (first, last) => run_seg si md first last
  | (t, s) :: rest, none =>
    if ms ≤ s then fuse_runs si ms md rest (some (t, t))
    else fuse_runs si ms md rest none
  | (t, s) :: rest, some (first, last) =>
    if ms ≤ s then fuse_runs si ms md rest (some (first, t))
    else run_seg si md first last ++ fuse_runs si ms md rest none

/-- The merge loop of `detect_rallies` computes exactly the run-based
fusion: `current_end` always equals the last active slot start plus the
slide interval. -/
lemma merge_eq_fuse (si ms md : ℚ) :
    ∀ pairs : List (ℚ × ℚ),
      (∀ ce, merge_slots si ms md pairs none ce = fuse_runs si ms md pairs none)
      ∧ (∀ first last, merge_slots si ms md pairs (some first) (last + si)
          = fuse_runs si ms md pairs (some (first, last))) := by
  intro pairs
  induction pairs with
  | nil =>
    refine ⟨fun ce => rfl, fun first last => ?_⟩
    simp only [merge_slots, fuse_runs, run_seg]
  | cons p rest ih =>
    obtain ⟨t, s⟩ := p
    constructor
    · intro ce
      simp only [merge_slots, fuse_runs]
      split
      · exact ih.2 t t
      · exact ih.1 ce
    · intro first last
      simp only [merge_slots, fuse_runs, Option.getD_some]
      split
      · exact ih.2 first t
      · rw [run_seg, ih.1 (last + si)]

/-- Every segment the merge loop emits is an `mkRally` of a candidate whose
(unrounded) duration is at least `min_duration`: candidates strictly shorter
than `min_duration` never appear. -/
lemma merge_slots_mem (si ms md : ℚ) :
    ∀ (pairs : List (ℚ × ℚ)) (cur : Option ℚ) (ce : ℚ) (x : Seg),
      x ∈ merge_slots si ms md pairs cur ce →
      ∃ a b, x = mkRally a b ∧ md ≤ b - a := by
  intro pairs
  induction pairs with
  | nil =>
    intro cur ce x hx
    cases cur with
    | none => simp [merge_slots] at hx
    | some cs =>
      simp only [merge_slots] at hx
      split at hx
      · rename_i h
        simp only [List.mem_singleton] at hx
        exact ⟨cs, ce, hx, h⟩
      · simp at hx
  | cons p rest ih =>
    obtain ⟨t, s⟩ := p
    intro cur ce x hx
    cases cur with
    | none =>
      simp only [merge_slots] at hx
      split at hx
      · exact ih _ _ x hx
      · exact ih _ _ x hx
    | some cs =>
      simp only [merge_slots] at hx
      split at hx
      · exact ih _ _ x hx
      · rw [List.mem_append] at hx
        rcases hx with hx | hx
        · split at hx
          · rename_i h
            simp only [List.mem_singleton] at hx
            exact ⟨cs, ce, hx, h⟩
          · simp at hx
        · exact ih _ _ x hx

/-- The start times of the emitted segments form a sublist of the rounded
slot starts (prefixed by the rounded pending-run start, if any). -/
lemma merge_slots_starts_sublist (si ms md : ℚ) :
    ∀ (pairs : List (ℚ × ℚ)) (cur : Option ℚ) (ce : ℚ),
      List.Sublist ((merge_slots si ms md pairs cur ce).map Seg.start)
        ((cur.toList ++ pairs.map Prod.fst).map round2) := by
  intro pairs
  induction pairs with
  | nil =>
    intro cur ce
    cases cur with
    | none => simp [merge_slots]
    | some cs =>
      simp only [merge_slots]
      split
      · simp [mkRally]
      · simp
  | cons p rest ih =>
    obtain ⟨t, s⟩ := p
    intro cur ce
    cases cur with
    | none =>
      simp only [merge_slots]
      split
      · simpa using ih (some t) (t + si)
      · simpa using (ih none ce).trans
          ((List.sublist_cons_self t (rest.map Prod.fst)).map round2)
    | some cs =>
      simp only [merge_slots]
      split
      · refine (ih (some cs) (t + si)).trans ?_
        simpa using List.Sublist.map round2
          ((List.sublist_cons_self t (rest.map Prod.fst)).cons₂ cs)
      · rw [List.map_append]
        have h2 := ih none ce
        simp only [Option.toList_none, List.nil_append] at h2
        split
        · simp only [mkRally, List.map_cons, List.map_nil, Option.toList_some,
            List.cons_append, List.map_cons]
          exact List.Sublist.cons₂ _ ((h2.cons (round2 t)).trans (by simp))
        · simp only [List.map_nil, List.nil_append, Option.toList_some, List.cons_append,
            List.map_cons]
          exact (h2.cons (round2 t)).cons (round2 cs)

lemma roundHalfEven_ge_floor (q : ℚ) : Int.floor q ≤ roundHalfEven q := by
  unfold roundHalfEven
  split_ifs <;> omega

lemma roundHalfEven_le_floor_add_one (q : ℚ) : roundHalfEven q ≤ Int.floor q + 1 := by
  unfold roundHalfEven
  split_ifs <;> omega

/-- Round-half-to-even is monotone. -/
lemma roundHalfEven_mono {a b : ℚ} (h : a ≤ b) : roundHalfEven a ≤ roundHalfEven b := by
  have hfab : Int.floor a ≤ Int.floor b := Int.floor_mono h
  rcases lt_or_eq_of_le hfab with hlt | heq
  · calc roundHalfEven a ≤ Int.floor a + 1 := roundHalfEven_le_floor_add_one a
      _ ≤ Int.floor b := by omega
      _ ≤ roundHalfEven b := roundHalfEven_ge_floor b
  · have hfa : ((Int.floor a : ℚ)) = (Int.floor b : ℚ) := by rw [heq]
    unfold roundHalfEven
    rw [← heq]
    split_ifs <;> first | omega | linarith

/-- Rounding to two decimals is monotone. -/
lemma round2_mono {a b : ℚ} (h : a ≤ b) : round2 a ≤ round2 b := by
  unfold round2
  have h1 : roundHalfEven (a * 100) ≤ roundHalfEven (b * 100) :=
    roundHalfEven_mono (by linarith)
  have h2 : ((roundHalfEven (a * 100) : ℚ)) ≤ (roundHalfEven (b * 100) : ℚ) :=
    Int.cast_le.mpr h1
  have h100 : (0 : ℚ) < 100 := by norm_num
  exact (div_le_div_right h100).mpr h2

/-- The heads of the slot loop output are the loop variable itself. -/
lemma buildSlots_head (slide t_max : ℚ) :
    ∀ (fuel : Nat) (t : ℚ) (z : ℚ), z ∈ (buildSlots slide t_max fuel t).head? → z = t := by
  intro fuel t z hz
  cases fuel with
  | zero => simp [buildSlots] at hz
  | succ f =>
    rw [buildSlots] at hz
    split at hz
    · simp at hz
      exact hz.symm
    · simp at hz

/-- With positive slide the slot grid is strictly increasing. -/
lemma buildSlots_chain (slide t_max : ℚ) (hs : 0 < slide) :
    ∀ (fuel : Nat) (t : ℚ), List.Chain' (· < ·) (buildSlots slide t_max fuel t) := by
  intro fuel
  induction fuel with
  | zero => intro t; simp [buildSlots]
  | succ fuel ih =>
    intro t
    rw [buildSlots]
    split
    · rw [List.chain'_cons']
      refine ⟨fun y hy => ?_, ih (t + slide)⟩
      rw [buildSlots_head slide t_max fuel (t + slide) y hy]
      linarith
    · simp

lemma pairsOf_map_fst (clips : List Clip) (si : ℚ) (rfc : Bool) :
    (pairsOf clips si rfc).map Prod.fst = slotsOf clips si := by
  unfold pairsOf
  apply List.map_fst_zip
  rw [smooth_length, rawOf_length]

/-! ## C2 -/

/-- C2: slots with smoothed score at least `min_score` are active, and the
merge loop of `detect_rallies` equals the run-based fusion `fuse_runs`, in
which each maximal run of consecutive active slots yields exactly one
candidate segment spanning `[first active slot start, last active slot
start + slide_interval)` (`run_seg`); a candidate is emitted iff its
duration is at least `min_duration` (so a candidate strictly shorter never
appears, one exactly equal does — last conjunct); every output segment
carries label `rally` and stems from a candidate of duration at least
`min_duration`; and the output is sorted by start time. -/
theorem c2_threshold_merge_filter (clips : List Clip) (cd si md ms : ℚ) (rfc : Bool)
    (hsi : 0 < si) (hne : clips ≠ []) :
    (detect_rallies clips cd si md ms rfc
        = fuse_runs si ms md (pairsOf clips si rfc) none)
    ∧ (∀ x ∈ detect_rallies clips cd si md ms rfc,
        x.label = "rally" ∧ ∃ a b, x = mkRally a b ∧ md ≤ b - a)
    ∧ List.Pairwise (· ≤ ·) ((detect_rallies clips cd si md ms rfc).map Seg.start)
    ∧ (∀ cs, merge_slots si ms md [] (some cs) (cs + md) = [mkRally cs (cs + md)]) := by
  have hclips : clips.isEmpty = false := by
    cases clips with
    | nil => exact absurd rfl hne
    | cons a l => rfl
  refine ⟨?_, ?_, ?_, ?_⟩
  · rw [detect_rallies, hclips]
    simp only [Bool.false_eq_true, if_false]
    by_cases hslots : (slotsOf clips si).isEmpty
    · rw [if_pos hslots]
      have hp : pairsOf clips si rfc = [] := by
        unfold pairsOf
        rw [List.isEmpty_iff] at hslots
        rw [hslots]
        rfl
      rw [hp]
      rfl
    · rw [if_neg hslots]
      exact (merge_eq_fuse si ms md (pairsOf clips si rfc)).1 0
  · intro x hx
    rw [detect_rallies, hclips] at hx
    simp only [Bool.false_eq_true, if_false] at hx
    split at hx
    · simp at hx
    · obtain ⟨a, b, hab, hd⟩ := merge_slots_mem si ms md _ _ _ x hx
      exact ⟨by rw [hab]; rfl, a, b, hab, hd⟩
  · rw [detect_rallies, hclips]
    simp only [Bool.false_eq_true, if_false]
    split
    · simp
    · have hsub := merge_slots_starts_sublist si ms md (pairsOf clips si rfc) none 0
      simp only [Option.toList_none, List.nil_append] at hsub
      have hchain : List.Chain' (· < ·) ((pairsOf clips si rfc).map Prod.fst) := by
        rw [pairsOf_map_fst]
        exact buildSlots_chain si (tmaxOf clips) hsi _ _
      have hpair : List.Pairwise (· < ·) ((pairsOf clips si rfc).map Prod.fst) :=
        List.chain'_iff_pairwise.mp hchain
      have hround : List.Pairwise (· ≤ ·)
          (((pairsOf clips si rfc).map Prod.fst).map round2) :=
        List.Pairwise.map round2 (fun a b hab => round2_mono (le_of_lt hab)) hpair
      exact hround.sublist hsub
  · intro cs
    simp only [merge_slots]
    rw [if_pos (by linarith : md ≤ cs + md - cs)]

unseal Rat.add Rat.mul Rat.inv Rat.sub Nat.gcd List.merge List.mergeSort in
/-- C2 witness: the merge/fusion equivalence instantiated on the example
input. -/
theorem c2_witness :
    (0 : ℚ) < 3 ∧ exampleClips ≠ [] ∧
      detect_rallies exampleClips 6 3 3 (1/2) true
        = fuse_runs 3 (1/2) 3 (pairsOf exampleClips 3 true) none :=
  ⟨by norm_num, by decide,
    (c2_threshold_merge_filter exampleClips 6 3 3 (1/2) true (by norm_num) (by decide)).1⟩

/-! ## Supporting lemmas: the window-planning loop -/

/-- Invariants of every window built by the planning loop (for positive
clip duration and non-negative slide): start bounded below by the loop
variable and by 0, duration exactly `cd`, end within the video. -/
lemma clip_specs_loop_mem (cd si td : ℚ) (hcd : 0 < cd) (hsi : 0 ≤ si) :
    ∀ (fuel : Nat) (t : ℚ) (idx : Nat), 0 ≤ t →
      ∀ w ∈ (clip_specs_loop cd si td fuel t idx).1,
        0 ≤ w.start ∧ t ≤ w.start ∧ w.stop = w.start + cd ∧ w.stop ≤ td := by
  intro fuel
  induction fuel with
  | zero => intro t idx _ w hw; simp [clip_specs_loop] at hw
  | succ fuel ih =>
    intro t idx ht w hw
    rw [clip_specs_loop] at hw
    split at hw
    · rename_i hcond
      rcases List.mem_cons.mp hw with hw | hw
      · subst hw
        exact ⟨ht, le_rfl, rfl, hcond⟩
      · obtain ⟨h0, hts, hdur, hle⟩ := ih (t + si) (idx + 1) (by linarith) w hw
        exact ⟨h0, by linarith, hdur, hle⟩
    · simp at hw

/-- The indices assigned by the planning loop are contiguous from
`idx + 1`. -/
lemma clip_specs_loop_indices (cd si td : ℚ) :
    ∀ (fuel : Nat) (t : ℚ) (idx : Nat),
      ((clip_specs_loop cd si td fuel t idx).1).map Window.index
        = List.range' (idx + 1) ((clip_specs_loop cd si td fuel t idx).1).length := by
  intro fuel
  induction fuel with
  | zero => intro t idx; rfl
  | succ fuel ih =>
    intro t idx
    rw [clip_specs_loop]
    split
    · simp only [List.map_cons, List.length_cons, List.range'_succ]
      rw [ih (t + si) (idx + 1)]
    · rfl

/-- With positive slide (and positive clip duration) the loop windows have
strictly increasing starts. -/
lemma clip_specs_loop_chain (cd si td : ℚ) (hcd : 0 < cd) (hsi : 0 < si) :
    ∀ (fuel : Nat) (t : ℚ) (idx : Nat), 0 ≤ t →
      List.Chain' (· < ·) (((clip_specs_loop cd si td fuel t idx).1).map Window.start) := by
  intro fuel
  induction fuel with
  | zero => intro t idx _; simp [clip_specs_loop]
  | succ fuel ih =>
    intro t idx ht
    rw [clip_specs_loop]
    split
    · simp only [List.map_cons]
      rw [List.chain'_cons']
      refine ⟨fun y hy => ?_, ih (t + si) (idx + 1) (by linarith)⟩
      obtain ⟨w, hw, hws⟩ := List.exists_of_mem_map (List.mem_of_mem_head? hy)
      obtain ⟨_, hts, _, _⟩ :=
        clip_specs_loop_mem cd si td hcd (le_of_lt hsi) fuel (t + si) (idx + 1)
          (by linarith) w hw
      rw [← hws]
      linarith
    · simp

/-! ## C3 (corrected) -/

unseal Rat.add Rat.mul Rat.inv Rat.sub Nat.gcd in
/-- C3 counterexample: for `td = 6, cd = 6, si = 1`, the trailing remainder
`6 - 1 = 5 > 1` triggers the final window anchored at
`max(0, 6 - 6) = 0`, duplicating the first window's start (and even its
whole span), so the windows are NOT strictly ordered by start time. -/
theorem c3_counterexample :
    clip_specs 6 6 1 = [⟨1, 0, 6⟩, ⟨2, 0, 6⟩]
    ∧ ¬ List.Pairwise (· < ·) ((clip_specs 6 6 1).map Window.start) := by
  constructor
  · decide
  · decide

/-- C3 amended: for all positive `td, cd, si`, every planned window
satisfies `0 ≤ start < stop ≤ td`; every window except possibly the last
has duration exactly `cd`; the indices are exactly `1, 2, ...` in order
(strictly increasing); and the starts are non-decreasing — but only
non-strictly: the final boundary-adjusted window may repeat the previous
start (see the counterexample). -/
theorem c3_amended (td cd si : ℚ) (htd : 0 < td) (hcd : 0 < cd) (hsi : 0 < si) :
    (∀ w ∈ clip_specs td cd si, 0 ≤ w.start ∧ w.start < w.stop ∧ w.stop ≤ td)
    ∧ (∀ w ∈ (clip_specs td cd si).dropLast, w.stop - w.start = cd)
    ∧ ((clip_specs td cd si).map Window.index
        = List.range' 1 (clip_specs td cd si).length)
    ∧ List.Pairwise (· ≤ ·) ((clip_specs td cd si).map Window.start) := by
  have hmem := clip_specs_loop_mem cd si td hcd (le_of_lt hsi)
    (planFuel td si) 0 0 le_rfl
  have hidx := clip_specs_loop_indices cd si td (planFuel td si) 0 0
  have hchain := clip_specs_loop_chain cd si td hcd hsi (planFuel td si) 0 0 le_rfl
  have hpw : List.Pairwise (· < ·)
      (((clip_specs_loop cd si td (planFuel td si) 0 0).1).map Window.start) :=
    List.chain'_iff_pairwise.mp hchain
  have hcs : clip_specs td cd si =
      if td - (clip_specs_loop cd si td (planFuel td si) 0 0).2 > si
      then (clip_specs_loop cd si td (planFuel td si) 0 0).1
            ++ [⟨(clip_specs_loop cd si td (planFuel td si) 0 0).1.length + 1,
                max 0 (td - cd), td⟩]
      else (clip_specs_loop cd si td (planFuel td si) 0 0).1 := rfl
  rw [hcs]
  split
  · -- final window appended
    refine ⟨?_, ?_, ?_, ?_⟩
    · intro w hw
      rcases List.mem_append.mp hw with hw | hw
      · obtain ⟨h0, _, hdur, hle⟩ := hmem w hw
        exact ⟨h0, by rw [hdur]; linarith, hle⟩
      · rw [List.mem_singleton] at hw
        subst hw
        refine ⟨le_max_left 0 (td - cd), ?_, le_rfl⟩
        exact max_lt htd (by linarith)
    · intro w hw
      rw [List.dropLast_concat] at hw
      obtain ⟨_, _, hdur, _⟩ := hmem w hw
      rw [hdur]
      ring
    · rw [List.map_append, hidx]
      simp only [List.map_cons, List.map_nil, List.length_append, List.length_cons,
        List.length_nil]
      rw [List.range'_concat]
      simp [Nat.add_comm]
    · rw [List.map_append]
      rw [List.pairwise_append]
      refine ⟨hpw.imp le_of_lt, by simp, ?_⟩
      intro a ha b hb
      simp only [List.map_cons, List.map_nil, List.mem_singleton] at hb
      subst hb
      obtain ⟨w, hw, hws⟩ := List.exists_of_mem_map ha
      obtain ⟨_, _, hdur, hle⟩ := hmem w hw
      have : w.start ≤ td - cd := by rw [hdur] at hle; linarith
      calc a = w.start := hws.symm
        _ ≤ td - cd := this
        _ ≤ max 0 (td - cd) := le_max_right 0 (td - cd)
  · -- no final window
    refine ⟨?_, ?_, hidx, hpw.imp le_of_lt⟩
    · intro w hw
      obtain ⟨h0, _, hdur, hle⟩ := hmem w hw
      exact ⟨h0, by rw [hdur]; linarith, hle⟩
    · intro w hw
      obtain ⟨_, _, hdur, _⟩ := hmem w (List.dropLast_sublist _ |>.mem hw)
      rw [hdur]
      ring

unseal Rat.add Rat.mul Rat.inv Rat.sub Nat.gcd in
/-- C3 witness: the amended statement's index conjunct at
`td = 20, cd = 6, si = 3`. -/
theorem c3_witness :
    (0 : ℚ) < 20 ∧ (0 : ℚ) < 6 ∧ (0 : ℚ) < 3 ∧
      (clip_specs 20 6 3).map Window.index = List.range' 1 (clip_specs 20 6 3).length :=
  ⟨by norm_num, by norm_num, by norm_num,
    (c3_amended 20 6 3 (by norm_num) (by norm_num) (by norm_num)).2.2.1⟩

/-! ## Supporting lemmas: batching and result collection -/

lemma length_filter_eq_countP {α : Type} (p : α → Bool) (l : List α) :
    (l.filter p).length = l.countP p := by
  induction l with
  | nil => rfl
  | cons a t ih =>
    rw [List.filter_cons, List.countP_cons]
    by_cases h : p a <;> simp [h, ih]

lemma filterMap_if {α β : Type} (q : α → Bool) (h : α → β) (l : List α) :
    l.filterMap (fun a => if q a then some (h a) else none) = (l.filter q).map h := by
  induction l with
  | nil => rfl
  | cons a t ih =>
    rw [List.filterMap_cons, List.filter_cons]
    by_cases hq : q a <;> simp [hq, ih]

lemma filterMap_flatMap {α β γ : Type} (l : List α) (f : α → List β) (g : β → Option γ) :
    (l.flatMap f).filterMap g = l.flatMap (fun a => (f a).filterMap g) := by
  induction l with
  | nil => rfl
  | cons a t ih => simp [List.flatMap_cons, List.filterMap_append, ih]

lemma length_filterMap_eq_countP {α β : Type} (f : α → Option β) (l : List α) :
    (l.filterMap f).length = l.countP (fun a => (f a).isSome) := by
  induction l with
  | nil => rfl
  | cons a t ih =>
    rw [List.filterMap_cons, List.countP_cons]
    cases hfa : f a <;> simp [hfa, ih]

/-- With a positive batch size and enough fuel, the batches partition the
window list. -/
lemma chunkAux_flatten (bs : Nat) (hbs : 0 < bs) :
    ∀ (fuel : Nat) (l : List Window), l.length ≤ fuel →
      (chunkAux bs fuel l).flatten = l := by
  intro fuel
  induction fuel with
  | zero =>
    intro l hl
    rw [List.eq_nil_of_length_eq_zero (Nat.le_zero.mp hl)]
    rfl
  | succ fuel ih =>
    intro l hl
    cases l with
    | nil => rfl
    | cons x xs =>
      rw [chunkAux, List.flatten_cons,
        ih ((x :: xs).drop bs) (by simp only [List.length_drop]; omega)]
      exact List.take_append_drop bs (x :: xs)

/-- Every batch is a sublist of the window list. -/
lemma chunkAux_sublist (bs : Nat) :
    ∀ (fuel : Nat) (l : List Window), ∀ c ∈ chunkAux bs fuel l, List.Sublist c l := by
  intro fuel
  induction fuel with
  | zero =>
    intro l c hc
    cases l <;> simp [chunkAux] at hc
  | succ fuel ih =>
    intro l c hc
    cases l with
    | nil => simp [chunkAux] at hc
    | cons x xs =>
      rw [chunkAux] at hc
      rcases List.mem_cons.mp hc with hc | hc
      · subst hc
        exact List.take_sublist bs (x :: xs)
      · exact (ih _ c hc).trans (List.drop_sublist bs (x :: xs))

/-- With a positive batch size the batches partition the window list. -/
lemma chunkList_flatten (bs : Nat) (hbs : 0 < bs) (l : List Window) :
    (chunkList bs l).flatten = l :=
  chunkAux_flatten bs hbs l.length l le_rfl

/-- The surviving indices of one batch are the batch's window indices whose
classification produced a value, in batch order. -/
lemma keptIndices_batch (cl : Nat → Option ClipResult) (b : List Window) :
    keptIndices (process_batch_async cl b)
      = (b.map Window.index).filter (fun i => (cl i).isSome) := by
  unfold keptIndices process_batch_async
  rw [List.filterMap_map]
  rw [show ((fun p : Nat × Option ClipResult => if p.2.isSome then some p.1 else none)
        ∘ fun w : Window => (w.index, cl w.index))
      = fun w : Window => if (cl w.index).isSome then some w.index else none from rfl]
  rw [filterMap_if (fun w => (cl w.index).isSome) Window.index b, List.filter_map]
  rfl

/-- The number of judgments recorded for one batch equals the number of its
windows whose classification produced a value. -/
lemma collect_batch_length (cl : Nat → Option ClipResult) (b : List Window) :
    (collectResults (process_batch_async cl b)).length
      = b.countP (fun w => (cl w.index).isSome) := by
  unfold collectResults process_batch_async
  rw [List.filterMap_map]
  rw [show (Prod.snd ∘ fun w : Window => (w.index, cl w.index))
      = fun w : Window => cl w.index from rfl]
  rw [length_filterMap_eq_countP]

/-- The surviving-index list of one batch has exactly as many entries as
judgments are recorded for that batch. -/
lemma keptIndices_batch_length (cl : Nat → Option ClipResult) (b : List Window) :
    (keptIndices (process_batch_async cl b)).length
      = b.countP (fun w => (cl w.index).isSome) := by
  rw [keptIndices_batch, length_filter_eq_countP, List.countP_map]
  rfl

lemma flatMap_filter_map_index (p : Nat → Bool) (L : List (List Window)) :
    L.flatMap (fun b => (b.map Window.index).filter p)
      = ((L.flatten).map Window.index).filter p := by
  induction L with
  | nil => rfl
  | cons a t ih =>
    rw [List.flatMap_cons, List.flatten_cons, List.map_append, List.filter_append, ih]

/-! ## C6 -/

/-- C6: if classification fails for exactly the index `i0` (and extraction
succeeds everywhere), the orchestrator's surviving indices are exactly the
planned window indices with `i0` removed, in the original order (no `none`
placeholder survives collection, nothing is reordered, and later batches are
still processed); the surviving indices are strictly increasing (ordered by
window index, independent of completion order, which `asyncio.gather`'s
positional result order already fixes); the batch containing `i0` records
exactly `N - 1` judgments (every other batch all `N`); and the final result
list has exactly one entry per surviving index. -/
theorem c6_batch_isolation_and_order (windows : List Window) (bs : Nat)
    (cl : Nat → Option ClipResult) (i0 : Nat) (hbs : 0 < bs)
    (hsort : List.Pairwise (· < ·) (windows.map Window.index))
    (hcl : ∀ i, cl i = none ↔ i = i0) :
    (keptIndices (runBatches windows bs (fun _ => true) cl)
        = (windows.map Window.index).filter (fun i => decide (i ≠ i0)))
    ∧ List.Pairwise (· < ·) (keptIndices (runBatches windows bs (fun _ => true) cl))
    ∧ (∀ b ∈ chunkList bs windows,
        (collectResults (process_batch_async cl (batchClips (fun _ => true) b))).length
          = if i0 ∈ b.map Window.index then b.length - 1 else b.length)
    ∧ (runResults windows bs (fun _ => true) cl).length
        = (keptIndices (runBatches windows bs (fun _ => true) cl)).length := by
  have hisSome : ∀ i, (cl i).isSome = decide (i ≠ i0) := by
    intro i
    by_cases h : i = i0
    · subst h
      rw [(hcl i).mpr rfl]
      simp
    · cases hc : cl i with
      | none => exact absurd ((hcl i).mp hc) h
      | some v => simp [h]
  have hbatch : ∀ b : List Window,
      batchClips (fun _ => true) b = b := fun b => List.filter_true b
  have hkept : keptIndices (runBatches windows bs (fun _ => true) cl)
      = (windows.map Window.index).filter (fun i => decide (i ≠ i0)) := by
    unfold runBatches keptIndices
    rw [filterMap_flatMap]
    have hcong : ∀ b : List Window,
        (process_batch_async cl (batchClips (fun _ => true) b)).filterMap
            (fun p => if p.2.isSome then some p.1 else none)
          = (b.map Window.index).filter (fun i => decide (i ≠ i0)) := by
      intro b
      rw [hbatch b]
      have := keptIndices_batch cl b
      unfold keptIndices at this
      rw [this]
      exact List.filter_congr (fun i _ => hisSome i)
    simp only [hcong]
    rw [flatMap_filter_map_index]
    rw [chunkList_flatten bs hbs windows]
  refine ⟨hkept, ?_, ?_, ?_⟩
  · rw [hkept]
    exact hsort.filter _
  · intro b hb
    rw [hbatch b, collect_batch_length]
    have hcong : b.countP (fun w => (cl w.index).isSome)
        = b.countP (fun w => decide (w.index ≠ i0)) :=
      List.countP_congr (fun w _ => by rw [hisSome w.index])
    rw [hcong]
    have hnodupW : (windows.map Window.index).Nodup := hsort.imp ne_of_lt
    have hsub : List.Sublist b windows := chunkAux_sublist bs windows.length windows b hb
    have hnodup : (b.map Window.index).Nodup := hnodupW.sublist (hsub.map Window.index)
    by_cases hmem : i0 ∈ b.map Window.index
    · rw [if_pos hmem]
      have hcount1 : (b.map Window.index).count i0 = 1 :=
        List.count_eq_one_of_mem hnodup hmem
      have hcount : b.countP (fun w => decide (w.index = i0)) = 1 := by
        have hmap := List.countP_map (fun i => decide (i = i0)) Window.index b
        have hc1 : (b.map Window.index).countP (fun i => decide (i = i0)) = 1 := by
          rw [List.count] at hcount1
          rw [← hcount1]
          exact List.countP_congr (fun i _ => by simp)
        rw [hmap] at hc1
        exact hc1
      have hsplit := List.length_eq_countP_add_countP
        (fun w : Window => decide (w.index = i0)) b
      have hnegcong : b.countP (fun w => decide ¬(decide (w.index = i0)) = true)
          = b.countP (fun w => decide (w.index ≠ i0)) :=
        List.countP_congr (fun w _ => by simp)
      omega
    · rw [if_neg hmem]
      rw [List.countP_eq_length]
      intro w hw
      simp only [decide_eq_true_eq]
      intro hwi
      exact hmem (hwi ▸ List.mem_map_of_mem Window.index hw)
  · unfold runResults runBatches keptIndices
    rw [filterMap_flatMap, List.length_flatMap, List.length_flatMap]
    congr 1
    apply List.map_congr_left
    intro b _
    simp only [Function.comp_apply]
    simp only [collect_batch_length]
    have h2 := keptIndices_batch_length cl (batchClips (fun _ => true) b)
    unfold keptIndices at h2
    simp only [h2]

/-- C6 witness: four windows, batch size 2, classification stubbed to fail
exactly at window index 2 — the surviving indices are `[1, 3, 4]`. -/
theorem c6_witness :
    (0 : Nat) < 2
    ∧ List.Pairwise (· < ·)
        (([⟨1, 0, 6⟩, ⟨2, 3, 9⟩, ⟨3, 6, 12⟩, ⟨4, 9, 15⟩] : List Window).map Window.index)
    ∧ keptIndices (runBatches [⟨1, 0, 6⟩, ⟨2, 3, 9⟩, ⟨3, 6, 12⟩, ⟨4, 9, 15⟩] 2 (fun _ => true)
          (fun i => if i = 2 then none
            else some ⟨0, 6, true, Confidence.high, ShotType.full_court, "x"⟩))
        = (([⟨1, 0, 6⟩, ⟨2, 3, 9⟩, ⟨3, 6, 12⟩, ⟨4, 9, 15⟩] : List Window).map
            Window.index).filter (fun i => decide (i ≠ 2)) :=
  ⟨by decide, by decide,
    (c6_batch_isolation_and_order [⟨1, 0, 6⟩, ⟨2, 3, 9⟩, ⟨3, 6, 12⟩, ⟨4, 9, 15⟩] 2
      (fun i => if i = 2 then none
        else some ⟨0, 6, true, Confidence.high, ShotType.full_court, "x"⟩) 2
      (by decide) (by decide)
      (fun i => by by_cases h : i = 2 <;> simp [h])).1⟩

end YpVideo
